import Mathlib

/-!
Verification of the rust-gdb MI parser (`src/parser.rs`) and session state
tracker (`src/dbg.rs`) against its natural-language specification.

The parser is embedded shallowly over `List Char`.  The regexes of
`parser.rs` are translated into their exact matching semantics (the `regex`
crate uses leftmost-first alternation; `.` matches any character except
`'\n'`; `[^\\]` matches any character except a backslash, including `'\n'`).
The recursive value grammar is embedded with an explicit fuel parameter;
`parse_line` supplies `line.length + 8` fuel, which is always sufficient
because every recursion layer of the value grammar consumes input.
-/

namespace RustGdb

/-- Modelled from the spec: `msg.rs` is not part of the sources; §3 of the
spec fixes the result classes as the closed set Done, Connected, Running,
Error, Exit. -/
inductive ResultClass : Type where
  | Done | Connected | Running | Error | Exit
deriving DecidableEq, Repr

/-- Modelled from the spec: `msg.rs` is not part of the sources; §3 and §9
describe the async class as an open, string-derived set with at least the
recognized value `Stopped` plus an unclassified fallback, which `dbg.rs`
names `AsyncClass::Other`. -/
inductive AsyncClass : Type where
  | Stopped | Other
deriving DecidableEq, Repr

mutual
/-- Modelled from the spec (§3 data model, `msg.rs` absent): the recursive
value union.  `str` holds exactly the text matched by `parse_constant`. -/
inductive Value : Type where
  | str : List Char → Value
  | variableList : List Variable → Value
  | valueList : List Value → Value

/-- Modelled from the spec (§3, `msg.rs` absent): a named value. -/
inductive Variable : Type where
  | mk : List Char → Value → Variable
end

def Variable.name : Variable → List Char
  | .mk n _ => n

def Variable.value : Variable → Value
  | .mk _ v => v

/-- Modelled from the spec (§3, `msg.rs` absent): the generic record
envelope: optional token (kept as the digit string, as `parse::<String>`
does), a class, and the ordered variable list. -/
structure MessageRecord (C : Type) where
  token : Option (List Char)
  cls : C
  content : List Variable

/-- Modelled from the spec (§3, `msg.rs` absent): async records tagged by
their wire prefix (`=` Notify, `+` Status, `*` Exec). -/
inductive AsyncRecord : Type where
  | exec : MessageRecord AsyncClass → AsyncRecord
  | status : MessageRecord AsyncClass → AsyncRecord
  | notify : MessageRecord AsyncClass → AsyncRecord

/-- Modelled from the spec (§3, `msg.rs` absent): stream records tagged by
their wire prefix (`~` Console, `@` Target, `&` Log). -/
inductive StreamRecord : Type where
  | console : List Char → StreamRecord
  | target : List Char → StreamRecord
  | log : List Char → StreamRecord

/-- Modelled from the spec (§3, `msg.rs` absent): the record union. -/
inductive Record : Type where
  | result : MessageRecord ResultClass → Record
  | async : AsyncRecord → Record
  | stream : StreamRecord → Record

/-- `dbg::Error` from `dbg.rs` (the payload of `IOError` is omitted). -/
inductive DbgError : Type where
  | IOError | ParseError | IgnoredOutput
deriving DecidableEq, Repr

/-- Modelled from the spec: `AsyncClass::from_str` lives in the absent
`msg.rs`; per §3/§9 it is total, recognizing `"stopped"` and mapping every
other class string to the unclassified fallback `Other`. -/
def AsyncClass.fromString (s : List Char) : AsyncClass :=
  if s = ("stopped".toList) then AsyncClass.Stopped else AsyncClass.Other

/-- `parse_token` (parser.rs): regex `^[0-9]+`, greedy; the matched digit
run is kept as a string (`parse::<String>` is the identity). -/
def parse_token (data : List Char) : Option (List Char × List Char) :=
  let tok := data.takeWhile Char.isDigit
  if tok = [] then none else some (tok, data.drop tok.length)

/-- The `if let Some((tok, rest)) = parse_token(line)` preamble shared by
`parse_result_line` and `parse_async_line`. -/
def split_token (line : List Char) : Option (List Char) × List Char :=
  match parse_token line with
  | some tr => (some tr.1, tr.2)
  | none => (none, line)

/-- `parse_result_class` (parser.rs): regex
`^(done|connected|running|error|exit)`, leftmost-first alternation;
`ResultClass::from_str` on the matched keyword (modelled from the spec,
`msg.rs` absent) gives the evident enum value. -/
def parse_result_class (data : List Char) : Option (ResultClass × List Char) :=
  if ("done".toList).isPrefixOf data then some (ResultClass.Done, data.drop 4)
  else if ("connected".toList).isPrefixOf data then some (ResultClass.Connected, data.drop 9)
  else if ("running".toList).isPrefixOf data then some (ResultClass.Running, data.drop 7)
  else if ("error".toList).isPrefixOf data then some (ResultClass.Error, data.drop 5)
  else if ("exit".toList).isPrefixOf data then some (ResultClass.Exit, data.drop 4)
  else none

def isAsyncClassChar (c : Char) : Bool := c.isAlpha || c = '-'

/-- `parse_async_class` (parser.rs): regex `^[-a-zA-Z]+`, greedy, then
`AsyncClass::from_str` on the matched run. -/
def parse_async_class (data : List Char) : Option (AsyncClass × List Char) :=
  let tok := data.takeWhile isAsyncClassChar
  if tok = [] then none
  else some (AsyncClass.fromString tok, data.drop tok.length)

def isVarNameStart (c : Char) : Bool := c.isAlpha || c = '_'

def isVarNameChar (c : Char) : Bool := c.isAlphanum || c = '_' || c = '-'

/-- `parse_varname` (parser.rs): regex `^[a-zA-Z_][a-zA-Z0-9_-]*`, greedy. -/
def parse_varname (data : List Char) : Option (List Char × List Char) :=
  match data with
  | [] => none
  | c :: rest =>
    if isVarNameStart c then
      let tail := rest.takeWhile isVarNameChar
      some (c :: tail, rest.drop tail.length)
    else none

/-- The first alternative `".*?[^\\]"` of the `parse_constant` regex,
applied after the opening quote: lazily scan for the earliest position
where a non-backslash character is followed by `"`; `.*?` cannot cross a
`'\n'`.  Returns the matched characters (closing quote included) and the
remainder. -/
def matchLazy : List Char → Option (List Char × List Char)
  | [] => none
  | [_] => none
  | a :: b :: rest =>
    if a ≠ '\\' ∧ b = '"' then some ([a, b], rest)
    else if a ≠ '\n' then
      (matchLazy (b :: rest)).map (fun p => (a :: p.1, p.2))
    else none

/-- `parse_constant` (parser.rs): regex `^(".*?[^\\]"|"")` with
leftmost-first alternation; the `Value::String` payload is the whole
matched slice, surrounding quotes included (`parse::<String>` is the
identity — nothing is stripped or unescaped). -/
def parse_constant (data : List Char) : Option (Value × List Char) :=
  if data.head? = some '"' then
    match matchLazy data.tail with
    | some (m, r) => some (Value.str ('"' :: m), r)
    | none =>
      if data.tail.head? = some '"' then
        some (Value.str ['"', '"'], data.tail.tail)
      else none
  else none

mutual
/-- `parse_value` (parser.rs): constant, else variable list, else value
list. -/
def parse_value (fuel : Nat) (data : List Char) : Option (Value × List Char) :=
  match fuel with
  | 0 => none
  | f + 1 =>
    match parse_constant data with
    | some r => some r
    | none =>
      match parse_variable_list f data with
      | some r => some r
      | none => parse_value_list f data

/-- `parse_variable` (parser.rs): varname, `=`, value. -/
def parse_variable (fuel : Nat) (data : List Char) : Option (Variable × List Char) :=
  match fuel with
  | 0 => none
  | f + 1 =>
    match parse_varname data with
    | none => none
    | some (n, rest) =>
      if rest.head? = some '=' then
        match parse_value f rest.tail with
        | some (v, rest3) => some (Variable.mk n v, rest3)
        | none => none
      else none

/-- `parse_variable_list` (parser.rs): `end` is `]` when the data starts
with `[` (a dead branch, kept for fidelity: the next check requires `{`),
else `}`; empty list allowed; members separated by commas. -/
def parse_variable_list (fuel : Nat) (data : List Char) : Option (Value × List Char) :=
  match fuel with
  | 0 => none
  | f + 1 =>
    let endc : Char := if data.head? = some '[' then ']' else '}'
    if data.head? = some '{' then
      let data1 := data.tail
      if data1.head? = some endc then some (Value.variableList [], data1.drop 1)
      else
        match parse_variable f data1 with
        | none => none
        | some (v, rest) =>
          match vlist_more f endc rest with
          | some (vs, rest2) => some (Value.variableList (v :: vs), rest2)
          | none => none
    else none

/-- The `while !data.starts_with(end)` loop of `parse_variable_list`. -/
def vlist_more (fuel : Nat) (endc : Char) (data : List Char) :
    Option (List Variable × List Char) :=
  match fuel with
  | 0 => none
  | f + 1 =>
    if data.head? = some endc then some ([], data.drop 1)
    else if data.head? = some ',' then
      match parse_variable f data.tail with
      | some (v, rest) =>
        (match vlist_more f endc rest with
         | some (vs, rest2) => some (v :: vs, rest2)
         | none => none)
      | none => none
    else none

/-- `parse_value_list` (parser.rs): `[`, values separated by commas, `]`. -/
def parse_value_list (fuel : Nat) (data : List Char) : Option (Value × List Char) :=
  match fuel with
  | 0 => none
  | f + 1 =>
    if data.head? = some '[' then
      let data1 := data.tail
      if data1.head? = some ']' then some (Value.valueList [], data1.drop 1)
      else
        match parse_value f data1 with
        | none => none
        | some (v, rest) =>
          match vallist_more f rest with
          | some (vs, rest2) => some (Value.valueList (v :: vs), rest2)
          | none => none
    else none

/-- The `while !data.starts_with("]")` loop of `parse_value_list`. -/
def vallist_more (fuel : Nat) (data : List Char) :
    Option (List Value × List Char) :=
  match fuel with
  | 0 => none
  | f + 1 =>
    if data.head? = some ']' then some ([], data.drop 1)
    else if data.head? = some ',' then
      match parse_value f data.tail with
      | some (v, rest) =>
        (match vallist_more f rest with
         | some (vs, rest2) => some (v :: vs, rest2)
         | none => none)
      | none => none
    else none
end

/-- `line.starts_with("\n") || line.starts_with("\r\n")` (parser.rs). -/
def starts_with_nl (l : List Char) : Bool :=
  match l with
  | [] => false
  | c :: rest => c == '\n' || (c == '\r' && rest.head? == some '\n')

/-- The `while !EOL` comma/variable loop shared by `parse_result_line` and
`parse_async_line` (parser.rs, lines 68–79 and 131–142). -/
def parse_more_vars (fuel : Nat) (line : List Char) :
    Option (List Variable × List Char) :=
  match fuel with
  | 0 => none
  | f + 1 =>
    if starts_with_nl line then some ([], line)
    else if line.head? = some ',' then
      match parse_variable fuel line.tail with
      | some (v, rest) =>
        (match parse_more_vars f rest with
         | some (vs, rest2) => some (v :: vs, rest2)
         | none => none)
      | none => none
    else none

/-- The content portion shared by `parse_result_line` (parser.rs lines
51–79) and `parse_async_line` (lines 108–142): at end-of-line the content
is empty; otherwise a comma, a first variable, then the comma loop.
Anything remaining after the end-of-line prefix is ignored. -/
def parse_content (fuel : Nat) (line3 : List Char) : Option (List Variable) :=
  if starts_with_nl line3 then some []
  else if line3.head? = some ',' then
    match parse_variable fuel line3.tail with
    | none => none
    | some (v, line5) =>
      match parse_more_vars fuel line5 with
      | some (vs, _) => some (v :: vs)
      | none => none
  else none

/-- `parse_result_line` (parser.rs). -/
def parse_result_line (fuel : Nat) (line0 : List Char) :
    Option (MessageRecord ResultClass) :=
  let p := split_token line0
  if p.2.head? = some '^' then
    match parse_result_class p.2.tail with
    | none => none
    | some (cls, line3) =>
      (parse_content fuel line3).map (fun vs => ⟨p.1, cls, vs⟩)
  else none

/-- `parse_async_line` (parser.rs).  The marker selects the constructor:
`=` Notify, `+` Status, `*` Exec. -/
def parse_async_line (fuel : Nat) (line0 : List Char) : Option AsyncRecord :=
  let p := split_token line0
  match p.2 with
  | [] => none
  | mark :: line2 =>
    if mark = '=' ∨ mark = '+' ∨ mark = '*' then
      match parse_async_class line2 with
      | none => none
      | some (cls, line3) =>
        (parse_content fuel line3).map (fun vs =>
          if mark = '=' then AsyncRecord.notify ⟨p.1, cls, vs⟩
          else if mark = '+' then AsyncRecord.status ⟨p.1, cls, vs⟩
          else AsyncRecord.exec ⟨p.1, cls, vs⟩)
    else none

/-- `parse_stream_line` (parser.rs): a marker, exactly one quoted string,
and a remainder equal to `"\n"` or `"\r\n"`. -/
def parse_stream_line (line : List Char) : Option StreamRecord :=
  match line with
  | [] => none
  | mark :: line1 =>
    if mark = '~' ∨ mark = '@' ∨ mark = '&' then
      match parse_constant line1 with
      | some (Value.str content, rest) =>
        if rest = ['\n'] ∨ rest = ['\r', '\n'] then
          some (if mark = '~' then StreamRecord.console content
                else if mark = '@' then StreamRecord.target content
                else StreamRecord.log content)
        else none
      | _ => none
    else none

/-- `parse_line` (parser.rs): result, else async, else stream, else
`ParseError`.  The fuel `line.length + 8` always suffices, because each
recursion layer of the value grammar consumes input. -/
def parse_line (line : List Char) : Except DbgError Record :=
  let fuel := line.length + 8
  match parse_result_line fuel line with
  | some r => Except.ok (Record.result r)
  | none =>
    match parse_async_line fuel line with
    | some a => Except.ok (Record.async a)
    | none =>
      match parse_stream_line line with
      | some s => Except.ok (Record.stream s)
      | none => Except.error DbgError.ParseError

/-! ## The session engine state tracker (`dbg.rs`) -/

/-- `usize::MAX` on a 64-bit target — the sentinel `dbg.rs` stores in the
`debugee_pid` atomic to mean "unknown". -/
def usizeMax : Nat := 2 ^ 64 - 1

/-- The two scalars of derived session state (`can_interact` and
`debugee_pid` in `Debugger`). -/
structure DbgState where
  can_interact : Bool
  debugee_pid : Nat
deriving DecidableEq, Repr

/-- The initial state established by `Debugger::start` (dbg.rs lines
112–113): `AtomicBool::new(true)`, `AtomicUsize::new(usize::MAX)`. -/
def DbgState.start : DbgState := ⟨true, usizeMax⟩

/-- `str_value.replace("\"", "")` (dbg.rs line 200): every `"` removed. -/
def stripQuotes (l : List Char) : List Char := l.filter (fun c => c ≠ '"')

/-- `stripped_value.parse::<usize>()` (dbg.rs line 201): an optional `+`
sign, then a nonempty all-digit run spanning the whole string, with the
value at most `usize::MAX` (larger values overflow to an error). -/
def parseUsize (l : List Char) : Option Nat :=
  let digits := match l with
    | '+' :: rest => rest
    | _ => l
  if digits ≠ [] ∧ digits.all Char.isDigit then
    let v := digits.foldl (fun acc c => 10 * acc + (c.toNat - 48)) 0
    if v ≤ usizeMax then some v else none
  else none

/-- The pid-scanning `for` loop of `process_line` (dbg.rs lines 196–208):
the first variable named `pid` holding a string that parses as a `usize`
wins (the loop `break`s); non-`pid` names, non-string values and
unparseable strings are skipped. -/
def findPid : List Variable → Option Nat
  | [] => none
  | v :: rest =>
    if v.name = ("pid".toList) then
      match v.value with
      | Value.str s =>
        (match parseUsize (stripQuotes s) with
         | some pid => some pid
         | none => findPid rest)
      | _ => findPid rest
    else findPid rest

/-- The state effect of one parsed record in `process_line` (dbg.rs lines
177–221): Exec/Status with class `Stopped` sets `can_interact`; Notify
with class `Other` discovers the pid while it is still the sentinel; a
Result with class `Running` clears `can_interact`; everything else is a
no-op. -/
def processRecord (r : Record) (s : DbgState) : DbgState :=
  match r with
  | Record.async (AsyncRecord.exec m) | Record.async (AsyncRecord.status m) =>
    if m.cls = AsyncClass.Stopped then { s with can_interact := true } else s
  | Record.async (AsyncRecord.notify m) =>
    if m.cls = AsyncClass.Other ∧ s.debugee_pid = usizeMax then
      match findPid m.content with
      | some pid => { s with debugee_pid := pid }
      | none => s
    else s
  | Record.result m =>
    if m.cls = ResultClass.Running then { s with can_interact := false } else s
  | Record.stream _ => s

/-- `if !line.ends_with("\n") { line.push('\n') }` (dbg.rs lines
172–174). -/
def ensure_newline (l : List Char) : List Char :=
  if l.getLast? = some '\n' then l else l ++ ['\n']

/-- `Debugger::process_line` (dbg.rs lines 166–229): normalize the line
terminator, parse; on success apply the state effect and forward the
record; on a parse failure do nothing. -/
def process_line (line : List Char) (s : DbgState) : DbgState × Option Record :=
  match parse_line (ensure_newline line) with
  | Except.ok r => (processRecord r s, some r)
  | Except.error _ => (s, none)

/-- The reader pipeline over a finite list of lines: records are forwarded
in order, the state is threaded through. -/
def process_lines (lines : List (List Char)) (s : DbgState) :
    DbgState × List Record :=
  match lines with
  | [] => (s, [])
  | l :: rest =>
    let p := process_line l s
    let q := process_lines rest p.1
    (q.1, match p.2 with
          | some r => r :: q.2
          | none => q.2)

/-- `Debugger::read_message_record` (dbg.rs lines 255–281): the channel is
a finite queue followed by closure.  `recv` on a nonempty queue yields the
head and every match arm returns it; `recv` on the closed, drained queue
yields `None` and the `loop` retries, consuming one unit of fuel — so the
function answers within some fuel bound only if the queue is nonempty. -/
def read_message_record (fuel : Nat) (queue : List Record) :
    Option (Record × List Record) :=
  match fuel, queue with
  | 0, _ => none
  | _ + 1, r :: rest => some (r, rest)
  | f + 1, [] => read_message_record f []

/-- `Debugger::read_result_record` (dbg.rs lines 234–252): call
`read_message_record`, return on a Result record, loop on Stream and Async
records. -/
def read_result_record (fuel : Nat) (queue : List Record) :
    Option (MessageRecord ResultClass) :=
  match fuel with
  | 0 => none
  | f + 1 =>
    match read_message_record (f + 1) queue with
    | none => none
    | some (Record.result m, _) => some m
    | some (_, rest) => read_result_record f rest

/-! ## Record-shape predicates -/

/-- Is the record an Exec or Status async record of class `Stopped`? -/
def isStoppedExecStatus : Record → Bool
  | Record.async (AsyncRecord.exec ⟨_, AsyncClass.Stopped, _⟩) => true
  | Record.async (AsyncRecord.status ⟨_, AsyncClass.Stopped, _⟩) => true
  | _ => false

/-- Is the record a Result record of class `Running`? -/
def isRunningResult : Record → Bool
  | Record.result ⟨_, ResultClass.Running, _⟩ => true
  | _ => false

/-- Is the record a Result record? -/
def isResultRec : Record → Bool
  | Record.result _ => true
  | _ => false

/-! ## Concrete evaluations of the embedding -/

example : parse_line ("789^done,this=\"that\"\n".toList) =
    Except.ok (Record.result ⟨some ("789".toList), ResultClass.Done,
      [Variable.mk ("this".toList) (Value.str ("\"that\"".toList))]⟩) := by
  rfl

example : parse_line ("=stopped,this=\"that\"\n".toList) =
    Except.ok (Record.async (AsyncRecord.notify ⟨none, AsyncClass.Stopped,
      [Variable.mk ("this".toList) (Value.str ("\"that\"".toList))]⟩)) := by
  rfl

example : parse_line ("~\"yadda yadda\"\n".toList) =
    Except.ok (Record.stream (StreamRecord.console ("\"yadda yadda\"".toList))) := by
  rfl

example : parse_line ("gibberish\n".toList) = Except.error DbgError.ParseError := by
  rfl

example : parse_line ("^done,a=[\"x\",\"y\"],b=\x7bc=\"d\"\x7d\n".toList) =
    Except.ok (Record.result ⟨none, ResultClass.Done,
      [Variable.mk ("a".toList)
        (Value.valueList [Value.str ("\"x\"".toList), Value.str ("\"y\"".toList)]),
       Variable.mk ("b".toList)
        (Value.variableList [Variable.mk ("c".toList) (Value.str ("\"d\"".toList))])]⟩) := by
  rfl

example :
    (process_lines [("1^running\n".toList), ("*stopped\n".toList)] DbgState.start).1.can_interact
      = true := by rfl

example :
    (process_lines [("1^running\n".toList)] DbgState.start).1.can_interact = false := by rfl

example :
    (process_lines [("=thread-group-started,pid=\"4242\"\n".toList)] DbgState.start).1.debugee_pid
      = 4242 := by rfl

/-! ## Helper lemmas about the lexical parsers -/

theorem takeWhile_all_append (p : Char → Bool) (xs : List Char) (d : Char)
    (rest : List Char) (hxs : ∀ c ∈ xs, p c = true) (hd : p d = false) :
    (xs ++ d :: rest).takeWhile p = xs := by
  induction xs with
  | nil => simp [List.takeWhile_cons, hd]
  | cons a xs ih =>
    have ha := hxs a (List.mem_cons_self a xs)
    simp [List.takeWhile_cons, ha,
      ih (fun c hc => hxs c (List.mem_cons_of_mem a hc))]

theorem split_token_not_digit (c : Char) (l : List Char) (hc : c.isDigit = false) :
    split_token (c :: l) = (none, c :: l) := by
  simp [split_token, parse_token, List.takeWhile_cons, hc]

theorem split_token_digits (N : List Char) (d : Char) (rest : List Char)
    (hN : N ≠ []) (hNd : ∀ c ∈ N, c.isDigit = true) (hd : d.isDigit = false) :
    split_token (N ++ d :: rest) = (some N, d :: rest) := by
  have ht := takeWhile_all_append Char.isDigit N d rest hNd hd
  simp [split_token, parse_token, ht, hN, List.drop_left]

theorem matchLazy_cons_done (a : Char) (rest : List Char) (ha : a ≠ '\\') :
    matchLazy (a :: '"' :: rest) = some ([a, '"'], rest) := by
  simp [matchLazy, ha]

theorem matchLazy_cons_skip (a b : Char) (rest : List Char)
    (h1 : a = '\\' ∨ b ≠ '"') (ha : a ≠ '\n') :
    matchLazy (a :: b :: rest) = (matchLazy (b :: rest)).map (fun p => (a :: p.1, p.2)) := by
  simp only [matchLazy]
  rw [if_neg, if_pos ha]
  rintro ⟨hne, hb⟩
  cases h1 with
  | inl h => exact hne h
  | inr h => exact h hb

theorem matchLazy_clean (x r : List Char) (hne : x ≠ [])
    (hx : ∀ c ∈ x, c ≠ '"' ∧ c ≠ '\\' ∧ c ≠ '\n') :
    matchLazy (x ++ '"' :: r) = some (x ++ ['"'], r) := by
  induction x with
  | nil => exact absurd rfl hne
  | cons a x ih =>
    obtain ⟨ha1, ha2, ha3⟩ := hx a (List.mem_cons_self a x)
    cases x with
    | nil => exact matchLazy_cons_done a r ha2
    | cons b x' =>
      have hb := hx b (by simp)
      have ihh := ih (by simp) (fun c hc => hx c (List.mem_cons_of_mem a hc))
      simp only [List.cons_append] at ihh ⊢
      rw [matchLazy_cons_skip a b (x' ++ '"' :: r) (Or.inr hb.1) ha3, ihh]
      simp

theorem matchLazy_esc (y r : List Char)
    (hy : ∀ c ∈ y, c ≠ '"' ∧ c ≠ '\\' ∧ c ≠ '\n') :
    matchLazy ('"' :: (y ++ '"' :: r)) = some ('"' :: (y ++ ['"']), r) := by
  cases y with
  | nil => exact matchLazy_cons_done '"' r (by decide)
  | cons c y' =>
    have hc := hy c (by simp)
    have hcl := matchLazy_clean (c :: y') r (by simp) hy
    simp only [List.cons_append] at hcl ⊢
    rw [matchLazy_cons_skip '"' c (y' ++ '"' :: r) (Or.inr hc.1) (by decide), hcl]
    simp

theorem matchLazy_skip (x t : List Char)
    (hx : ∀ c ∈ x, c ≠ '"' ∧ c ≠ '\n') (ht : t ≠ []) (hh : t.head? ≠ some '"') :
    matchLazy (x ++ t) = (matchLazy t).map (fun p => (x ++ p.1, p.2)) := by
  induction x with
  | nil =>
    simp only [List.nil_append]
    cases h : matchLazy t <;> simp [h]
  | cons a x ih =>
    have ha := hx a (List.mem_cons_self a x)
    cases x with
    | nil =>
      cases t with
      | nil => exact absurd rfl ht
      | cons d t' =>
        have hd : d ≠ '"' := by
          intro hdq
          exact hh (by simp [hdq])
        simp only [List.cons_append, List.nil_append]
        rw [matchLazy_cons_skip a d t' (Or.inr hd) ha.2]
    | cons b x' =>
      have hb := hx b (by simp)
      have ihh := ih (fun c hc => hx c (List.mem_cons_of_mem a hc))
      simp only [List.cons_append] at ihh ⊢
      rw [matchLazy_cons_skip a b (x' ++ t) (Or.inr hb.1) ha.2, ihh]
      cases h : matchLazy t <;> simp [h]

theorem matchLazy_escaped_quote (x y r : List Char)
    (hx : ∀ c ∈ x, c ≠ '"' ∧ c ≠ '\\' ∧ c ≠ '\n')
    (hy : ∀ c ∈ y, c ≠ '"' ∧ c ≠ '\\' ∧ c ≠ '\n') :
    matchLazy (x ++ '\\' :: '"' :: (y ++ '"' :: r)) =
      some (x ++ '\\' :: '"' :: (y ++ ['"']), r) := by
  rw [matchLazy_skip x ('\\' :: '"' :: (y ++ '"' :: r))
      (fun c hc => ⟨(hx c hc).1, (hx c hc).2.2⟩) (by simp) (by simp),
    matchLazy_cons_skip '\\' '"' (y ++ '"' :: r) (Or.inl rfl) (by decide),
    matchLazy_esc y r hy]
  simp

theorem parse_constant_clean (x r : List Char) (hne : x ≠ [])
    (hx : ∀ c ∈ x, c ≠ '"' ∧ c ≠ '\\' ∧ c ≠ '\n') :
    parse_constant ('"' :: (x ++ '"' :: r)) =
      some (Value.str ('"' :: (x ++ ['"'])), r) := by
  simp [parse_constant, matchLazy_clean x r hne hx]

theorem parse_content_ne_head (fuel : Nat) (c : Char) (t : List Char)
    (h1 : c ≠ '\n') (h2 : c ≠ '\r') (h3 : c ≠ ',') :
    parse_content fuel (c :: t) = none := by
  have e1 : (c == '\n') = false := beq_eq_false_iff_ne.mpr h1
  have e2 : (c == '\r') = false := beq_eq_false_iff_ne.mpr h2
  have hnl : starts_with_nl (c :: t) = false := by
    simp [starts_with_nl, e1, e2]
  simp [parse_content, hnl, h3]

theorem isAlpha_ne (c : Char) (h : c.isAlpha = true) :
    c ≠ '\n' ∧ c ≠ '\r' ∧ c ≠ ',' ∧ c ≠ '"' := by
  refine ⟨?_, ?_, ?_, ?_⟩ <;> (rintro rfl; exact absurd h (by decide))

theorem alpha_prefix_of_append_newline (k w : List Char)
    (hk : ∀ c ∈ k, c.isAlpha = true)
    (h : k.isPrefixOf (w ++ ['\n']) = true) :
    k.isPrefixOf w = true := by
  induction k generalizing w with
  | nil => simp [List.isPrefixOf]
  | cons a k ih =>
    have ha := hk a (List.mem_cons_self a k)
    cases w with
    | nil =>
      exfalso
      simp only [List.nil_append, List.isPrefixOf, Bool.and_eq_true, beq_iff_eq] at h
      obtain ⟨rfl, -⟩ := h
      exact absurd ha (by decide)
    | cons b w' =>
      simp only [List.cons_append, List.isPrefixOf, Bool.and_eq_true, beq_iff_eq] at h ⊢
      exact ⟨h.1, ih w' (fun c hc => hk c (List.mem_cons_of_mem a hc)) h.2⟩

theorem parse_content_of_proper_prefix (fuel : Nat) (k w : List Char)
    (hw : ∀ c ∈ w, c.isAlpha = true)
    (hkw : k.isPrefixOf w = true) (hne : k ≠ w) :
    parse_content fuel ((w ++ ['\n']).drop k.length) = none := by
  obtain ⟨t, rfl⟩ := List.isPrefixOf_iff_prefix.mp hkw
  cases t with
  | nil => exact absurd (List.append_nil k).symm hne
  | cons c t' =>
    have hc := isAlpha_ne c (hw c (by simp))
    rw [List.append_assoc, List.drop_left, List.cons_append]
    exact parse_content_ne_head fuel c (t' ++ ['\n']) hc.1 hc.2.1 hc.2.2.1

/-! ## Claims about the parse_constant value grammar -/

/-- C4 counterexample: the well-formed quoted string `"\\"` — content a
single escaped backslash, first unescaped closing quote at index 3 — is
rejected outright by `parse_constant` (its regex demands a non-backslash
character immediately before the closing quote), so the claim that every
well-formed quoted string is consumed through its first unescaped closing
quote is false; the surrounding stream line fails with it. -/
theorem quoted_string_escaped_backslash_fails :
    parse_constant ("\"\\\\\"\n".toList) = none
    ∧ parse_line ("~\"\\\\\"\n".toList) = Except.error DbgError.ParseError :=
  ⟨rfl, rfl⟩

/-- C4 (amended): the value parser accepts the empty string `""`, and a
backslash-escaped quote never terminates the string; but the string is
terminated at the first `"` immediately preceded by a non-backslash
character (rather than at the first unescaped `"`), so content ending in
an escaped backslash is not matched at its closing quote. -/
theorem quoted_string_termination :
    (∀ x r : List Char, x ≠ [] → (∀ c ∈ x, c ≠ '"' ∧ c ≠ '\\' ∧ c ≠ '\n') →
        parse_constant ('"' :: (x ++ '"' :: r)) =
          some (Value.str ('"' :: (x ++ ['"'])), r))
    ∧ (∀ x y r : List Char, (∀ c ∈ x, c ≠ '"' ∧ c ≠ '\\' ∧ c ≠ '\n') →
        (∀ c ∈ y, c ≠ '"' ∧ c ≠ '\\' ∧ c ≠ '\n') →
        parse_constant ('"' :: (x ++ '\\' :: '"' :: (y ++ '"' :: r))) =
          some (Value.str ('"' :: (x ++ '\\' :: '"' :: (y ++ ['"']))), r))
    ∧ parse_constant ('"' :: '"' :: ['\n']) = some (Value.str ['"', '"'], ['\n']) := by
  refine ⟨parse_constant_clean, ?_, rfl⟩
  intro x y r hx hy
  simp [parse_constant, matchLazy_escaped_quote x y r hx hy]

/-- Witness for `quoted_string_termination`: the string `"ab"` is consumed
through its closing quote, and the escaped quote inside `"a\"b"` does not
terminate it. -/
theorem quoted_string_termination_witness :
    parse_constant ('"' :: (("ab".toList) ++ '"' :: ("z".toList))) =
      some (Value.str ('"' :: (("ab".toList) ++ ['"'])), "z".toList)
    ∧ parse_constant ('"' :: (("a".toList) ++ '\\' :: '"' :: (("b".toList) ++ '"' :: ['\n']))) =
      some (Value.str ('"' :: (("a".toList) ++ '\\' :: '"' :: (("b".toList) ++ ['"']))), ['\n']) :=
  ⟨quoted_string_termination.1 ("ab".toList) ("z".toList) (by decide) (by decide),
   quoted_string_termination.2.1 ("a".toList) ("b".toList) ['\n'] (by decide) (by decide)⟩

theorem parse_constant_clean_nl (x : List Char)
    (hx : ∀ c ∈ x, c ≠ '"' ∧ c ≠ '\\' ∧ c ≠ '\n') :
    parse_constant ('"' :: (x ++ '"' :: ['\n'])) =
      some (Value.str ('"' :: (x ++ ['"'])), ['\n']) := by
  cases x with
  | nil => rfl
  | cons c x' => exact parse_constant_clean (c :: x') ['\n'] (by simp) hx

/-! ## Claims about result-line parsing -/

/-- C1 counterexample: parsing `5^done,a="x"\n` yields the variable `a`
bound to `String("\"x\"")` — the raw quoted wire form — not to
`String("x")` with the quotes stripped, so the claim that the quotes and
escapes are already stripped is false. -/
theorem result_line_value_not_stripped :
    parse_line ("5^done,a=\"x\"\n".toList) =
      Except.ok (Record.result ⟨some ("5".toList), ResultClass.Done,
        [Variable.mk ("a".toList) (Value.str ("\"x\"".toList))]⟩)
    ∧ Value.str ("\"x\"".toList) ≠ Value.str ("x".toList) := by
  refine ⟨rfl, ?_⟩
  intro h
  injection h with h'
  exact absurd h' (by decide)

/-- C1 (amended): for every well-formed result line `N^done,a="x"` +
newline (token `N` a nonempty digit run, `x` free of quotes, backslashes
and newlines), `parse_line` returns a Result record with token `N`, class
`Done`, and the single variable `a` whose value is the String carrying the
raw quoted wire form `"x"` — surrounding quotes kept, nothing unescaped. -/
theorem result_line_value_keeps_quotes (N x : List Char)
    (hN : N ≠ []) (hNd : ∀ c ∈ N, c.isDigit = true)
    (hx : ∀ c ∈ x, c ≠ '"' ∧ c ≠ '\\' ∧ c ≠ '\n') :
    parse_line (N ++ '^' :: 'd' :: 'o' :: 'n' :: 'e' :: ',' :: 'a' :: '=' :: '"'
        :: (x ++ '"' :: ['\n'])) =
      Except.ok (Record.result ⟨some N, ResultClass.Done,
        [Variable.mk ['a'] (Value.str ('"' :: (x ++ ['"'])))]⟩) := by
  obtain ⟨f, hf⟩ : ∃ f,
      (N ++ '^' :: 'd' :: 'o' :: 'n' :: 'e' :: ',' :: 'a' :: '=' :: '"'
        :: (x ++ '"' :: ['\n'])).length + 8 = (f + 1) + 1 :=
    ⟨(N ++ '^' :: 'd' :: 'o' :: 'n' :: 'e' :: ',' :: 'a' :: '=' :: '"'
        :: (x ++ '"' :: ['\n'])).length + 6, rfl⟩
  have hsp := split_token_digits N '^'
    ('d' :: 'o' :: 'n' :: 'e' :: ',' :: 'a' :: '=' :: '"' :: (x ++ '"' :: ['\n']))
    hN hNd (by decide)
  have hval : parse_value (f + 1) ('"' :: (x ++ '"' :: ['\n'])) =
      some (Value.str ('"' :: (x ++ ['"'])), ['\n']) := by
    simp only [parse_value, parse_constant_clean_nl x hx]
  have hvn : parse_varname ('a' :: '=' :: '"' :: (x ++ '"' :: ['\n'])) =
      some (['a'], '=' :: '"' :: (x ++ '"' :: ['\n'])) := rfl
  have hvar : parse_variable ((f + 1) + 1) ('a' :: '=' :: '"' :: (x ++ '"' :: ['\n'])) =
      some (Variable.mk ['a'] (Value.str ('"' :: (x ++ ['"']))), ['\n']) := by
    simp only [parse_variable, hvn, List.head?_cons, List.tail_cons, hval]
    simp
  have hmv : parse_more_vars ((f + 1) + 1) ['\n'] = some ([], ['\n']) := rfl
  have hnl : starts_with_nl (',' :: 'a' :: '=' :: '"' :: (x ++ '"' :: ['\n'])) = false := rfl
  have hcont : parse_content ((f + 1) + 1)
      (',' :: 'a' :: '=' :: '"' :: (x ++ '"' :: ['\n'])) =
      some [Variable.mk ['a'] (Value.str ('"' :: (x ++ ['"'])))] := by
    simp only [parse_content, hnl, List.head?_cons, List.tail_cons, hvar, hmv]
    simp
  have hcls : parse_result_class
      ('d' :: 'o' :: 'n' :: 'e' :: ',' :: 'a' :: '=' :: '"' :: (x ++ '"' :: ['\n'])) =
      some (ResultClass.Done, ',' :: 'a' :: '=' :: '"' :: (x ++ '"' :: ['\n'])) := rfl
  have hres : parse_result_line ((f + 1) + 1)
      (N ++ '^' :: 'd' :: 'o' :: 'n' :: 'e' :: ',' :: 'a' :: '=' :: '"'
        :: (x ++ '"' :: ['\n'])) =
      some ⟨some N, ResultClass.Done,
        [Variable.mk ['a'] (Value.str ('"' :: (x ++ ['"'])))]⟩ := by
    simp only [parse_result_line, hsp, List.head?_cons, List.tail_cons, hcls, hcont]
    simp
  simp only [parse_line, hf, hres]

/-- Witness for `result_line_value_keeps_quotes` at `N = "5"`, `x = "x"`. -/
theorem result_line_value_keeps_quotes_witness :
    parse_line (("5".toList) ++ '^' :: 'd' :: 'o' :: 'n' :: 'e' :: ',' :: 'a' :: '=' :: '"'
        :: (("x".toList) ++ '"' :: ['\n'])) =
      Except.ok (Record.result ⟨some ("5".toList), ResultClass.Done,
        [Variable.mk ['a'] (Value.str ('"' :: (("x".toList) ++ ['"'])))]⟩) :=
  result_line_value_keeps_quotes ("5".toList) ("x".toList)
    (by decide) (by decide) (by decide)

/-! ## Claims about line shapes: trailing input, class sets, stream lines -/

/-- C10: result and async lines examine input only up to and including the
first newline — arbitrary extra text after that newline is silently
ignored — whereas a stream line is accepted only when the closing quote is
followed by exactly `"\n"` or `"\r\n"` and nothing more. -/
theorem trailing_after_newline :
    (∀ extra : List Char, parse_line (("^done\n".toList) ++ extra) =
        Except.ok (Record.result ⟨none, ResultClass.Done, []⟩))
    ∧ (∀ extra : List Char, parse_line (("=foo\n".toList) ++ extra) =
        Except.ok (Record.async (AsyncRecord.notify ⟨none, AsyncClass.Other, []⟩)))
    ∧ (∀ extra : List Char, extra ≠ [] →
        parse_line (("~\"x\"\n".toList) ++ extra) = Except.error DbgError.ParseError) := by
  refine ⟨?_, ?_, ?_⟩
  · intro extra
    show parse_line ('^' :: 'd' :: 'o' :: 'n' :: 'e' :: '\n' :: extra) = _
    have hsp := split_token_not_digit '^' ('d' :: 'o' :: 'n' :: 'e' :: '\n' :: extra) (by decide)
    have hcls : parse_result_class ('d' :: 'o' :: 'n' :: 'e' :: '\n' :: extra) =
        some (ResultClass.Done, '\n' :: extra) := rfl
    have hct : ∀ g, parse_content g ('\n' :: extra) = some [] := fun g => rfl
    have hres : ∀ g, parse_result_line g ('^' :: 'd' :: 'o' :: 'n' :: 'e' :: '\n' :: extra) =
        some ⟨none, ResultClass.Done, []⟩ := by
      intro g
      simp only [parse_result_line, hsp, List.head?_cons, List.tail_cons, hcls, hct]
      simp
    simp only [parse_line, hres]
  · intro extra
    show parse_line ('=' :: 'f' :: 'o' :: 'o' :: '\n' :: extra) = _
    have hsp := split_token_not_digit '=' ('f' :: 'o' :: 'o' :: '\n' :: extra) (by decide)
    have hres : ∀ g, parse_result_line g ('=' :: 'f' :: 'o' :: 'o' :: '\n' :: extra) = none := by
      intro g
      simp only [parse_result_line, hsp, List.head?_cons]
      rw [if_neg (by decide)]
    have hac : parse_async_class ('f' :: 'o' :: 'o' :: '\n' :: extra) =
        some (AsyncClass.Other, '\n' :: extra) := rfl
    have hct : ∀ g, parse_content g ('\n' :: extra) = some [] := fun g => rfl
    have hasy : ∀ g, parse_async_line g ('=' :: 'f' :: 'o' :: 'o' :: '\n' :: extra) =
        some (AsyncRecord.notify ⟨none, AsyncClass.Other, []⟩) := by
      intro g
      simp only [parse_async_line, hsp, hac, hct]
      simp
    simp only [parse_line, hres, hasy]
  · intro extra h
    show parse_line ('~' :: '"' :: 'x' :: '"' :: '\n' :: extra) = _
    have hsp := split_token_not_digit '~' ('"' :: 'x' :: '"' :: '\n' :: extra) (by decide)
    have hres : ∀ g, parse_result_line g ('~' :: '"' :: 'x' :: '"' :: '\n' :: extra) = none := by
      intro g
      simp only [parse_result_line, hsp, List.head?_cons]
      rw [if_neg (by decide)]
    have hasy : ∀ g, parse_async_line g ('~' :: '"' :: 'x' :: '"' :: '\n' :: extra) = none := by
      intro g
      simp only [parse_async_line, hsp]
      rw [if_neg (by decide)]
    have hpc : parse_constant ('"' :: 'x' :: '"' :: '\n' :: extra) =
        some (Value.str ('"' :: 'x' :: ['"']), '\n' :: extra) := rfl
    have hcond : ¬('\n' :: extra = ['\n'] ∨ '\n' :: extra = ['\r', '\n']) := by
      rintro (hc | hc) <;> simp_all
    have hstr : parse_stream_line ('~' :: '"' :: 'x' :: '"' :: '\n' :: extra) = none := by
      simp only [parse_stream_line, hpc]
      rw [if_pos (by decide), if_neg hcond]
    simp only [parse_line, hres, hasy, hstr]

/-- Witness for `trailing_after_newline`: extra text `e` after the newline
of a stream line makes the whole line unparseable. -/
theorem trailing_after_newline_witness :
    parse_line (("~\"x\"\n".toList) ++ ['e']) = Except.error DbgError.ParseError :=
  trailing_after_newline.2.2 ['e'] (by decide)

/-- C9: result classes are a closed set — a `^` line whose class keyword
(a nonempty letter run) is none of done/connected/running/error/exit is a
`ParseError`, with no unknown-class fallback — while async classes are an
open set: after `=`, `+` or `*`, any nonempty run of letters and hyphens
is accepted as the async class. -/
theorem class_sets :
    (∀ w : List Char, (∀ c ∈ w, c.isAlpha = true) → w ≠ [] →
        w ≠ ("done".toList) → w ≠ ("connected".toList) → w ≠ ("running".toList) →
        w ≠ ("error".toList) → w ≠ ("exit".toList) →
        parse_line ('^' :: (w ++ ['\n'])) = Except.error DbgError.ParseError)
    ∧ (∀ w : List Char, (∀ c ∈ w, isAsyncClassChar c = true) → w ≠ [] →
        parse_line ('=' :: (w ++ ['\n'])) =
          Except.ok (Record.async (AsyncRecord.notify ⟨none, AsyncClass.fromString w, []⟩))
        ∧ parse_line ('+' :: (w ++ ['\n'])) =
          Except.ok (Record.async (AsyncRecord.status ⟨none, AsyncClass.fromString w, []⟩))
        ∧ parse_line ('*' :: (w ++ ['\n'])) =
          Except.ok (Record.async (AsyncRecord.exec ⟨none, AsyncClass.fromString w, []⟩))) := by
  constructor
  · intro w hw hne hd hc hr he hx
    have hsp := split_token_not_digit '^' (w ++ ['\n']) (by decide)
    have hclscase : parse_result_class (w ++ ['\n']) = none ∨
        ∃ cls t, parse_result_class (w ++ ['\n']) = some (cls, t) ∧
          ∀ g, parse_content g t = none := by
      by_cases h1 : ("done".toList).isPrefixOf (w ++ ['\n']) = true
      · refine Or.inr ⟨ResultClass.Done, _,
          by simp only [parse_result_class]; rw [if_pos h1], fun g => ?_⟩
        exact parse_content_of_proper_prefix g ("done".toList) w hw
          (alpha_prefix_of_append_newline _ w (by decide) h1) (fun hh => hd hh.symm)
      · by_cases h2 : ("connected".toList).isPrefixOf (w ++ ['\n']) = true
        · refine Or.inr ⟨ResultClass.Connected, _,
            by simp only [parse_result_class]; rw [if_neg h1, if_pos h2], fun g => ?_⟩
          exact parse_content_of_proper_prefix g ("connected".toList) w hw
            (alpha_prefix_of_append_newline _ w (by decide) h2) (fun hh => hc hh.symm)
        · by_cases h3 : ("running".toList).isPrefixOf (w ++ ['\n']) = true
          · refine Or.inr ⟨ResultClass.Running, _,
              by simp only [parse_result_class]; rw [if_neg h1, if_neg h2, if_pos h3],
              fun g => ?_⟩
            exact parse_content_of_proper_prefix g ("running".toList) w hw
              (alpha_prefix_of_append_newline _ w (by decide) h3) (fun hh => hr hh.symm)
          · by_cases h4 : ("error".toList).isPrefixOf (w ++ ['\n']) = true
            · refine Or.inr ⟨ResultClass.Error, _,
                by simp only [parse_result_class];
                   rw [if_neg h1, if_neg h2, if_neg h3, if_pos h4],
                fun g => ?_⟩
              exact parse_content_of_proper_prefix g ("error".toList) w hw
                (alpha_prefix_of_append_newline _ w (by decide) h4) (fun hh => he hh.symm)
            · by_cases h5 : ("exit".toList).isPrefixOf (w ++ ['\n']) = true
              · refine Or.inr ⟨ResultClass.Exit, _,
                  by simp only [parse_result_class];
                     rw [if_neg h1, if_neg h2, if_neg h3, if_neg h4, if_pos h5],
                  fun g => ?_⟩
                exact parse_content_of_proper_prefix g ("exit".toList) w hw
                  (alpha_prefix_of_append_newline _ w (by decide) h5) (fun hh => hx hh.symm)
              · refine Or.inl ?_
                simp only [parse_result_class]
                rw [if_neg h1, if_neg h2, if_neg h3, if_neg h4, if_neg h5]
    have hres : ∀ g, parse_result_line g ('^' :: (w ++ ['\n'])) = none := by
      intro g
      rcases hclscase with hcl | ⟨cls, t, hcl, hct⟩
      · simp [parse_result_line, hsp, hcl]
      · simp [parse_result_line, hsp, hcl, hct g]
    have hasy : ∀ g, parse_async_line g ('^' :: (w ++ ['\n'])) = none := by
      intro g
      simp only [parse_async_line, hsp]
      rw [if_neg (by decide)]
    have hstr : parse_stream_line ('^' :: (w ++ ['\n'])) = none := by
      simp only [parse_stream_line]
      rw [if_neg (by decide)]
    simp only [parse_line, hres, hasy, hstr]
  · intro w hw hne
    have htw := takeWhile_all_append isAsyncClassChar w '\n' [] hw (by decide)
    have hac : parse_async_class (w ++ ['\n']) = some (AsyncClass.fromString w, ['\n']) := by
      simp only [parse_async_class, htw]
      simp [hne, List.drop_left]
    have hct : ∀ g, parse_content g ['\n'] = some [] := fun g => rfl
    refine ⟨?_, ?_, ?_⟩
    · have hsp := split_token_not_digit '=' (w ++ ['\n']) (by decide)
      have hres : ∀ g, parse_result_line g ('=' :: (w ++ ['\n'])) = none := by
        intro g
        simp only [parse_result_line, hsp, List.head?_cons]
        rw [if_neg (by decide)]
      have hasy : ∀ g, parse_async_line g ('=' :: (w ++ ['\n'])) =
          some (AsyncRecord.notify ⟨none, AsyncClass.fromString w, []⟩) := by
        intro g
        simp only [parse_async_line, hsp, hac, hct]
        simp
      simp only [parse_line, hres, hasy]
    · have hsp := split_token_not_digit '+' (w ++ ['\n']) (by decide)
      have hres : ∀ g, parse_result_line g ('+' :: (w ++ ['\n'])) = none := by
        intro g
        simp only [parse_result_line, hsp, List.head?_cons]
        rw [if_neg (by decide)]
      have hasy : ∀ g, parse_async_line g ('+' :: (w ++ ['\n'])) =
          some (AsyncRecord.status ⟨none, AsyncClass.fromString w, []⟩) := by
        intro g
        simp only [parse_async_line, hsp, hac, hct]
        simp
      simp only [parse_line, hres, hasy]
    · have hsp := split_token_not_digit '*' (w ++ ['\n']) (by decide)
      have hres : ∀ g, parse_result_line g ('*' :: (w ++ ['\n'])) = none := by
        intro g
        simp only [parse_result_line, hsp, List.head?_cons]
        rw [if_neg (by decide)]
      have hasy : ∀ g, parse_async_line g ('*' :: (w ++ ['\n'])) =
          some (AsyncRecord.exec ⟨none, AsyncClass.fromString w, []⟩) := by
        intro g
        simp only [parse_async_line, hsp, hac, hct]
        simp
      simp only [parse_line, hres, hasy]

/-- Witness for `class_sets`: `^foo` is rejected, `=custom-class` is
accepted with the open async class. -/
theorem class_sets_witness :
    parse_line ('^' :: (("foo".toList) ++ ['\n'])) = Except.error DbgError.ParseError
    ∧ parse_line ('=' :: (("custom-class".toList) ++ ['\n'])) =
        Except.ok (Record.async (AsyncRecord.notify
          ⟨none, AsyncClass.fromString ("custom-class".toList), []⟩)) :=
  ⟨class_sets.1 ("foo".toList) (by decide) (by decide) (by decide) (by decide)
      (by decide) (by decide) (by decide),
   (class_sets.2 ("custom-class".toList) (by decide) (by decide)).1⟩

/-- C8: a stream line is a marker `~`/`@`/`&` (Console/Target/Log), one
quoted string, and nothing but the line terminator: if anything other than
`"\n"` or `"\r\n"` follows the closing quote, no record of any kind is
produced. -/
theorem stream_line_exactly_one_string :
    (∀ (mark : Char) (x junk : List Char), (mark = '~' ∨ mark = '@' ∨ mark = '&') →
        x ≠ [] → (∀ c ∈ x, c ≠ '"' ∧ c ≠ '\\' ∧ c ≠ '\n') →
        junk ≠ ['\n'] → junk ≠ ['\r', '\n'] →
        parse_line (mark :: '"' :: (x ++ '"' :: junk)) = Except.error DbgError.ParseError)
    ∧ (∀ x : List Char, x ≠ [] → (∀ c ∈ x, c ≠ '"' ∧ c ≠ '\\' ∧ c ≠ '\n') →
        parse_line ('~' :: '"' :: (x ++ '"' :: ['\n'])) =
          Except.ok (Record.stream (StreamRecord.console ('"' :: (x ++ ['"']))))
        ∧ parse_line ('@' :: '"' :: (x ++ '"' :: ['\n'])) =
          Except.ok (Record.stream (StreamRecord.target ('"' :: (x ++ ['"']))))
        ∧ parse_line ('&' :: '"' :: (x ++ '"' :: ['\n'])) =
          Except.ok (Record.stream (StreamRecord.log ('"' :: (x ++ ['"']))))) := by
  constructor
  · intro mark x junk hm hne hx hj1 hj2
    have hpc := parse_constant_clean x junk hne hx
    have hcond : ¬(junk = ['\n'] ∨ junk = ['\r', '\n']) := by
      rintro (hc | hc)
      exacts [hj1 hc, hj2 hc]
    have hdig : mark.isDigit = false := by rcases hm with rfl | rfl | rfl <;> decide
    have hcar : ¬(some mark = some '^') := by rcases hm with rfl | rfl | rfl <;> decide
    have hmk : ¬(mark = '=' ∨ mark = '+' ∨ mark = '*') := by
      rcases hm with rfl | rfl | rfl <;> decide
    have hsp := split_token_not_digit mark ('"' :: (x ++ '"' :: junk)) hdig
    have hres : ∀ g, parse_result_line g (mark :: '"' :: (x ++ '"' :: junk)) = none := by
      intro g
      simp only [parse_result_line, hsp, List.head?_cons]
      rw [if_neg hcar]
    have hasy : ∀ g, parse_async_line g (mark :: '"' :: (x ++ '"' :: junk)) = none := by
      intro g
      simp only [parse_async_line, hsp]
      rw [if_neg hmk]
    have hstr : parse_stream_line (mark :: '"' :: (x ++ '"' :: junk)) = none := by
      simp only [parse_stream_line, hpc]
      rw [if_pos hm, if_neg hcond]
    simp only [parse_line, hres, hasy, hstr]
  · intro x hne hx
    have hpc := parse_constant_clean x ['\n'] hne hx
    refine ⟨?_, ?_, ?_⟩
    · have hsp := split_token_not_digit '~' ('"' :: (x ++ '"' :: ['\n'])) (by decide)
      have hres : ∀ g, parse_result_line g ('~' :: '"' :: (x ++ '"' :: ['\n'])) = none := by
        intro g
        simp only [parse_result_line, hsp, List.head?_cons]
        rw [if_neg (by decide)]
      have hasy : ∀ g, parse_async_line g ('~' :: '"' :: (x ++ '"' :: ['\n'])) = none := by
        intro g
        simp only [parse_async_line, hsp]
        rw [if_neg (by decide)]
      have hstr : parse_stream_line ('~' :: '"' :: (x ++ '"' :: ['\n'])) =
          some (StreamRecord.console ('"' :: (x ++ ['"']))) := by
        simp only [parse_stream_line, hpc]
        simp
      simp only [parse_line, hres, hasy, hstr]
    · have hsp := split_token_not_digit '@' ('"' :: (x ++ '"' :: ['\n'])) (by decide)
      have hres : ∀ g, parse_result_line g ('@' :: '"' :: (x ++ '"' :: ['\n'])) = none := by
        intro g
        simp only [parse_result_line, hsp, List.head?_cons]
        rw [if_neg (by decide)]
      have hasy : ∀ g, parse_async_line g ('@' :: '"' :: (x ++ '"' :: ['\n'])) = none := by
        intro g
        simp only [parse_async_line, hsp]
        rw [if_neg (by decide)]
      have hstr : parse_stream_line ('@' :: '"' :: (x ++ '"' :: ['\n'])) =
          some (StreamRecord.target ('"' :: (x ++ ['"']))) := by
        simp only [parse_stream_line, hpc]
        simp
      simp only [parse_line, hres, hasy, hstr]
    · have hsp := split_token_not_digit '&' ('"' :: (x ++ '"' :: ['\n'])) (by decide)
      have hres : ∀ g, parse_result_line g ('&' :: '"' :: (x ++ '"' :: ['\n'])) = none := by
        intro g
        simp only [parse_result_line, hsp, List.head?_cons]
        rw [if_neg (by decide)]
      have hasy : ∀ g, parse_async_line g ('&' :: '"' :: (x ++ '"' :: ['\n'])) = none := by
        intro g
        simp only [parse_async_line, hsp]
        rw [if_neg (by decide)]
      have hstr : parse_stream_line ('&' :: '"' :: (x ++ '"' :: ['\n'])) =
          some (StreamRecord.log ('"' :: (x ++ ['"']))) := by
        simp only [parse_stream_line, hpc]
        simp
      simp only [parse_line, hres, hasy, hstr]

/-- Witness for `stream_line_exactly_one_string`: `~"x"z` fails, `~"x"` +
newline is a Console record. -/
theorem stream_line_exactly_one_string_witness :
    parse_line ('~' :: '"' :: (("x".toList) ++ '"' :: ("z".toList))) =
      Except.error DbgError.ParseError
    ∧ parse_line ('~' :: '"' :: (("x".toList) ++ '"' :: ['\n'])) =
      Except.ok (Record.stream (StreamRecord.console ('"' :: (("x".toList) ++ ['"'])))) :=
  ⟨stream_line_exactly_one_string.1 '~' ("x".toList) ("z".toList) (Or.inl rfl)
      (by decide) (by decide) (by decide) (by decide),
   (stream_line_exactly_one_string.2 ("x".toList) (by decide) (by decide)).1⟩

/-! ## Claims about the state tracker -/

/-- C2: `can_interact` starts `true`; processing a record sets it to `true`
exactly when the record is an Exec or Status async record of class
`Stopped`, to `false` exactly when it is a Result record of class
`Running`, and leaves it unchanged for every other record. -/
theorem can_interact_tracking (r : Record) (s : DbgState) :
    (processRecord r s).can_interact =
      (if isStoppedExecStatus r then true
       else if isRunningResult r then false
       else s.can_interact)
    ∧ DbgState.start.can_interact = true := by
  refine ⟨?_, rfl⟩
  cases r with
  | result m =>
    obtain ⟨t, c, co⟩ := m
    cases c <;> simp [processRecord, isStoppedExecStatus, isRunningResult]
  | async a =>
    cases a with
    | exec m =>
      obtain ⟨t, c, co⟩ := m
      cases c <;> simp [processRecord, isStoppedExecStatus, isRunningResult]
    | status m =>
      obtain ⟨t, c, co⟩ := m
      cases c <;> simp [processRecord, isStoppedExecStatus, isRunningResult]
    | notify m =>
      obtain ⟨t, c, co⟩ := m
      cases c <;>
        simp only [processRecord, isStoppedExecStatus, isRunningResult] <;>
        split <;>
        first
          | rfl
          | (rename_i h
             cases hf : findPid co <;> simp)
  | stream s' =>
    simp [processRecord, isStoppedExecStatus, isRunningResult]

/-- C3 counterexample: a Notify record whose `pid` string parses exactly to
`usize::MAX` is "stored" into the sentinel, so the state remains
indistinguishable from unset and a later differing `pid` record overwrites
the first discovery. -/
theorem debugee_pid_sentinel_overwrite :
    parseUsize (stripQuotes ("\"18446744073709551615\"".toList)) = some usizeMax
    ∧ (processRecord
        (Record.async (AsyncRecord.notify ⟨none, AsyncClass.Other,
          [Variable.mk ("pid".toList) (Value.str ("\"18446744073709551615\"".toList))]⟩))
        DbgState.start).debugee_pid = usizeMax
    ∧ (processRecord
        (Record.async (AsyncRecord.notify ⟨none, AsyncClass.Other,
          [Variable.mk ("pid".toList) (Value.str ("\"42\"".toList))]⟩))
        (processRecord
          (Record.async (AsyncRecord.notify ⟨none, AsyncClass.Other,
            [Variable.mk ("pid".toList) (Value.str ("\"18446744073709551615\"".toList))]⟩))
          DbgState.start)).debugee_pid = 42
    ∧ (42 : Nat) ≠ usizeMax := by
  refine ⟨by rfl, by rfl, by rfl, by decide⟩

/-- C3 (amended): `debuggee_pid` starts as the sentinel `usize::MAX`
("unknown"); once it holds any value other than the sentinel, no further
record changes it (first discovery wins); and from the unknown state a
Notify record with class `Other` whose content yields a pid stores that
pid.  The amendment: a discovered pid equal to `usize::MAX` itself is
stored as the sentinel, remains "unknown", and may be overwritten later. -/
theorem debugee_pid_first_wins :
    (∀ (r : Record) (s : DbgState), s.debugee_pid ≠ usizeMax →
        (processRecord r s).debugee_pid = s.debugee_pid)
    ∧ (∀ (m : MessageRecord AsyncClass) (v : Nat), m.cls = AsyncClass.Other →
        findPid m.content = some v →
        (processRecord (Record.async (AsyncRecord.notify m)) DbgState.start).debugee_pid = v)
    ∧ DbgState.start.debugee_pid = usizeMax := by
  refine ⟨?_, ?_, rfl⟩
  · intro r s h
    cases r with
    | result m => simp only [processRecord]; split <;> rfl
    | stream s' => rfl
    | async a =>
      cases a with
      | exec m => simp only [processRecord]; split <;> rfl
      | status m => simp only [processRecord]; split <;> rfl
      | notify m =>
        simp only [processRecord]
        rw [if_neg]
        intro hc
        exact h hc.2
  · intro m v hcls hfind
    simp only [processRecord]
    rw [if_pos ⟨hcls, rfl⟩, hfind]

/-- Witness for `debugee_pid_first_wins` at concrete inputs. -/
theorem debugee_pid_first_wins_witness :
    (processRecord
        (Record.async (AsyncRecord.notify ⟨none, AsyncClass.Other,
          [Variable.mk ("pid".toList) (Value.str ("\"9\"".toList))]⟩))
        ⟨true, 4242⟩).debugee_pid = 4242
    ∧ (processRecord
        (Record.async (AsyncRecord.notify ⟨none, AsyncClass.Other,
          [Variable.mk ("pid".toList) (Value.str ("\"4242\"".toList))]⟩))
        DbgState.start).debugee_pid = 4242 :=
  ⟨debugee_pid_first_wins.1 _ ⟨true, 4242⟩ (by decide),
   debugee_pid_first_wins.2.1
     ⟨none, AsyncClass.Other, [Variable.mk ("pid".toList) (Value.str ("\"4242\"".toList))]⟩
     4242 rfl (by rfl)⟩

/-- C5: `read_result_record` discards every Async and Stream record and
returns the envelope of the first Result record in the channel. -/
theorem read_result_record_first_result (pre : List Record)
    (m : MessageRecord ResultClass) (post : List Record)
    (h : ∀ r ∈ pre, isResultRec r = false) :
    read_result_record (pre.length + 1) (pre ++ Record.result m :: post) = some m := by
  induction pre with
  | nil => rfl
  | cons r pre ih =>
    have hr : isResultRec r = false := h r (List.mem_cons_self r pre)
    have htail : ∀ x ∈ pre, isResultRec x = false :=
      fun x hx => h x (List.mem_cons_of_mem r hx)
    cases r with
    | result m' => simp [isResultRec] at hr
    | async a =>
      show read_result_record (pre.length + 1) (pre ++ Record.result m :: post) = some m
      exact ih htail
    | stream s =>
      show read_result_record (pre.length + 1) (pre ++ Record.result m :: post) = some m
      exact ih htail

/-- Witness for `read_result_record_first_result`: the spec's scenario
(records for `~"x"`, `=foo`, `5^done`) yields the Done envelope with
token 5. -/
theorem read_result_record_first_result_witness :
    read_result_record 3
      [Record.stream (StreamRecord.console ("\"x\"".toList)),
       Record.async (AsyncRecord.notify ⟨none, AsyncClass.Other, []⟩),
       Record.result ⟨some ("5".toList), ResultClass.Done, []⟩]
      = some ⟨some ("5".toList), ResultClass.Done, []⟩ :=
  read_result_record_first_result
    [Record.stream (StreamRecord.console ("\"x\"".toList)),
     Record.async (AsyncRecord.notify ⟨none, AsyncClass.Other, []⟩)]
    ⟨some ("5".toList), ResultClass.Done, []⟩ [] (by decide)

/-- C6: `parse_line` is total and all-or-nothing — every line yields either
one record or `ParseError` — and in the reader pipeline a corrupt line
between two valid lines forwards exactly the two valid records, in order,
with no effect on the derived state. -/
theorem parse_line_total_and_bad_line_dropped :
    (∀ l : List Char,
        (∃ r, parse_line l = Except.ok r) ∨ parse_line l = Except.error DbgError.ParseError)
    ∧ (∀ (s : DbgState) (l1 l2 l3 : List Char) (r1 r3 : Record),
        parse_line (ensure_newline l1) = Except.ok r1 →
        parse_line (ensure_newline l2) = Except.error DbgError.ParseError →
        parse_line (ensure_newline l3) = Except.ok r3 →
        process_lines [l1, l2, l3] s =
          (processRecord r3 (processRecord r1 s), [r1, r3])) := by
  constructor
  · intro l
    simp only [parse_line]
    cases parse_result_line (l.length + 8) l with
    | some r => exact Or.inl ⟨Record.result r, rfl⟩
    | none =>
      cases parse_async_line (l.length + 8) l with
      | some a => exact Or.inl ⟨Record.async a, rfl⟩
      | none =>
        cases parse_stream_line l with
        | some s => exact Or.inl ⟨Record.stream s, rfl⟩
        | none => exact Or.inr rfl
  · intro s l1 l2 l3 r1 r3 h1 h2 h3
    simp [process_lines, process_line, h1, h2, h3]

/-- Witness for `parse_line_total_and_bad_line_dropped`: a corrupt line
between `^done` and `*stopped` (both without trailing newline, exercising
the newline normalization) is dropped. -/
theorem parse_line_total_and_bad_line_dropped_witness :
    process_lines [("^done".toList), ("oops".toList), ("*stopped".toList)] DbgState.start =
      (⟨true, usizeMax⟩,
       [Record.result ⟨none, ResultClass.Done, []⟩,
        Record.async (AsyncRecord.exec ⟨none, AsyncClass.Stopped, []⟩)]) :=
  parse_line_total_and_bad_line_dropped.2 DbgState.start
    ("^done".toList) ("oops".toList) ("*stopped".toList)
    (Record.result ⟨none, ResultClass.Done, []⟩)
    (Record.async (AsyncRecord.exec ⟨none, AsyncClass.Stopped, []⟩))
    rfl rfl rfl

/-- C7 is refuted: on the closed, drained output channel,
`read_message_record` never observes the closure and returns — `recv`
yields `None` and the `loop` retries, for every amount of fuel.  (The
claim says the call terminates over any finite channel content followed by
closure; the empty content is a counterexample.) -/
theorem read_message_record_closed_spins (fuel : Nat) :
    read_message_record fuel [] = none := by
  induction fuel with
  | zero => rfl
  | succ f ih =>
    show read_message_record f [] = none
    exact ih

end RustGdb
